import Mathlib

/-!
Verification of the Embiggen tile-grid geometry and seam-blending engine
(`invokeai/backend/generator/embiggen.py`).

The shallow embedding below models, directly from the source:
* `ceildiv` — the integer ceiling division helper (Python floor division);
* `computeTiles` / `planGrid` — the tile-count computation and its sanity
  assertion, with Python's division-by-zero made explicit;
* `overlapSize` — the ratio/absolute-pixel overlap computation;
* `cropLeft` / `cropTop` — the per-tile crop rectangle corners;
* `advanceSeed` / `genLoop` / `genTiles` — the per-tile seed threading of the
  synthesis loop, including the skip of unselected tiles in sparse mode;
* `Mask`, `fullGridMask`, `sparseMask` — the alpha-layer chosen for each tile
  (named after the `alphaLayer…` images in the source; `noFade` stands for
  "no `putalpha` call at all", i.e. the tile stays fully opaque);
* `sanityOk` / `makeImage` / `compositeOps` — the tile-count sanity check and
  the compositing pass.
-/

/-- Alpha-layer identifiers, one per `alphaLayer…` image built in the source;
`noFade` means no `putalpha` call is made and the tile stays fully opaque. -/
inductive Mask
  | noFade
  | L | T | LTC | TaC | LTaC
  | R | B | TB | LR
  | RBC | LBC | RTC
  | ABT | ABL | ABR | ABB
  | AA
deriving DecidableEq, Repr

/-- Integer ceiling division exactly as in the source:
`def ceildiv(a, b): return -1 * (-a // b)` with Python's floor division. -/
def ceildiv (a b : Int) : Int := -1 * ((-a).fdiv b)

/-- Failure modes of the planning stage: Python's `ZeroDivisionError` raised
by `ceildiv` when the divisor is zero, and the `AssertionError` from the
sanity assert (`emb_tiles_x > 1 or emb_tiles_y > 1`). -/
inductive PlanError
  | divByZero
  | notLargerThanTile
deriving DecidableEq, Repr

/-- Tile count along one dimension, from
`emb_tiles_x = ceildiv(initsuperwidth - width, width - overlap_size_x) + 1`
guarded by `if (initsuperwidth - width) > 0`.  The explicit `divByZero`
branch models Python raising `ZeroDivisionError` inside `ceildiv`. -/
def computeTiles (superDim tileDim ov : Nat) : Except PlanError Int :=
  if 0 < (superDim : Int) - tileDim then
    if (tileDim : Int) - ov = 0 then .error .divByZero
    else .ok (ceildiv ((superDim : Int) - tileDim) ((tileDim : Int) - ov) + 1)
  else .ok 1

/-- The planning stage: both tile counts followed by the sanity assert
`assert emb_tiles_x > 1 or emb_tiles_y > 1`. -/
def planGrid (sW sH w h ovx ovy : Nat) : Except PlanError (Int × Int) :=
  match computeTiles sW w ovx with
  | .error e => .error e
  | .ok tx =>
    match computeTiles sH h ovy with
    | .error e => .error e
    | .ok ty => if 1 < tx ∨ 1 < ty then .ok (tx, ty) else .error .notLargerThanTile

/-- Overlap in pixels from the configured ratio-or-pixels knob (source lines
151–158): a value below 1 is a ratio of the tile dimension, otherwise an
absolute pixel count; a negative value is first reset to 0. -/
def overlapSize (r : ℚ) (dim : Nat) : Int :=
  if r < 1 then (if r < 0 then 0 else round (r * dim)) else round r

/-- Left edge of a tile's crop rectangle (source lines 347–350):
`left = initsuperwidth - width` for the last column, else
`left = round(emb_column_i * (width - overlap_size_x))` (an exact integer). -/
def cropLeft (sW w ovx tilesX col : Nat) : Nat :=
  if col + 1 = tilesX then sW - w else col * (w - ovx)

/-- Top edge of a tile's crop rectangle (source lines 351–354). -/
def cropTop (sH h ovy tilesY row : Nat) : Nat :=
  if row + 1 = tilesY then sH - h else row * (h - ovy)

/-- Right edge of a tile's crop rectangle: `right = left + width`. -/
def cropRight (sW w ovx tilesX col : Nat) : Nat := cropLeft sW w ovx tilesX col + w

/-- Bottom edge of a tile's crop rectangle: `bottom = top + height`. -/
def cropBottom (sH h ovy tilesY row : Nat) : Nat := cropTop sH h ovy tilesY row + h

/-- The 32-bit unsigned maximum, `np.iinfo(np.uint32).max`. -/
def uint32Max : Nat := 2 ^ 32 - 1

/-- The seed wrap limit from the source: `np.iinfo(np.uint32).max - 1`. -/
def seedintlimit : Nat := uint32Max - 1

/-- One seed step of the synthesis loop:
`if seed < seedintlimit: seed += 1 else: seed = 0`. -/
def advanceSeed (s : Nat) : Nat := if s < seedintlimit then s + 1 else 0

/-- The tile-synthesis loop over a list of tile indices, threading the mutable
seed: the seed is advanced at the top of every iteration except for tile 0,
and unselected tiles in sparse mode are skipped after that advance
(`if embiggen_tiles and not tile in embiggen_tiles: continue`).  Returns the
(tile index, seed) pairs passed to `gen_img2img.generate`, in order. -/
def genLoop (sel : List Nat) (seed : Nat) : List Nat → List (Nat × Nat)
  | [] => []
  | t :: rest =>
    let seed' := if t = 0 then seed else advanceSeed seed
    if sel ≠ [] ∧ t ∉ sel then genLoop sel seed' rest
    else (t, seed') :: genLoop sel seed' rest

/-- The synthesis loop over the whole grid, `for tile in range(emb_tiles_x *
emb_tiles_y)`, starting from the run's seed. -/
def genTiles (sel : List Nat) (N seed0 : Nat) : List (Nat × Nat) :=
  genLoop sel seed0 (List.range N)

/-- Full-grid-mode mask selection (source lines 426–428 and 530–547), as a
function of the tile's linear index: the top-left tile gets no alpha layer at
all; the remaining tiles follow the normal-tiling branch. -/
def fullGridMask (tilesX tile : Nat) : Mask :=
  let row := tile / tilesX
  let col := tile % tilesX
  if row = 0 ∧ col = 0 then Mask.noFade
  else if row = 0 ∧ 1 ≤ col then Mask.L
  else if 1 ≤ row ∧ col = 0 then
    (if col + 1 = tilesX then Mask.T else Mask.TaC)
  else
    (if col + 1 = tilesX then Mask.LTC else Mask.LTaC)

/-- Sparse-rerun-mode mask selection (source lines 441–529), as a function of
the tile's grid position and the two look-aheads `(tile + 1) in
embiggen_tiles` (right) and `(tile + emb_tiles_x) in embiggen_tiles` (down).
`noFade` records the `# Otherwise do nothing on this tile` branch. -/
def sparseMask (tilesX tilesY tile : Nat) (sel : List Nat) : Mask :=
  let row := tile / tilesX
  let col := tile % tilesX
  let lookR := (tile + 1) ∈ sel
  let lookD := (tile + tilesX) ∈ sel
  if row = 0 then
    if col = 0 then
      if lookR then (if lookD then Mask.noFade else Mask.B)
      else if lookD then Mask.R
      else Mask.RBC
    else if col = tilesX - 1 then
      if lookD then Mask.L else Mask.LBC
    else
      if lookR then (if lookD then Mask.L else Mask.LBC)
      else if lookD then Mask.LR
      else Mask.ABT
  else if row = tilesY - 1 then
    if col = 0 then
      if lookR then Mask.TaC else Mask.RTC
    else if col = tilesX - 1 then Mask.LTC
    else
      if lookR then Mask.LTaC else Mask.ABB
  else
    if col = 0 then
      if lookR then (if lookD then Mask.TaC else Mask.TB)
      else if lookD then Mask.RTC
      else Mask.ABL
    else if col = tilesX - 1 then
      if lookD then Mask.LTC else Mask.ABR
    else
      if lookR then (if lookD then Mask.LTaC else Mask.ABR)
      else if lookD then Mask.ABB
      else Mask.AA

/-- The full-grid mask rule exactly as the specification words it, as a pure
function of the three booleans `(row == 0, col == 0, col == lastCol)`:
top-left → no fade; other top-row tiles → left fade; left-column tiles not in
the top row → top fade plus asymmetric corner unless in the last column,
where the plain top fade is used; all remaining tiles → top+left+corner fade,
asymmetric unless in the last column. -/
def fullGridRule (topRow leftCol lastCol : Bool) : Mask :=
  if topRow then (if leftCol then Mask.noFade else Mask.L)
  else if leftCol then (if lastCol then Mask.T else Mask.TaC)
  else if lastCol then Mask.LTC else Mask.LTaC

/-- One compositing operation: which tile is pasted, at which canvas point,
under which alpha layer. -/
structure CompositeOp where
  tile : Nat
  left : Nat
  top : Nat
  mask : Mask
deriving DecidableEq, Repr

/-- The compositing pass (source lines 414–549): raster order over the grid,
skipping unselected tiles in sparse mode; the full-grid top-left tile is
pasted at (0,0) with no alpha layer, every other tile at its crop corner with
the mask chosen by the mode's rule. -/
def compositeOps (sW sH w h ovx ovy tilesX tilesY : Nat) (sel : List Nat) :
    List CompositeOp :=
  (List.range (tilesX * tilesY)).filterMap (fun tile =>
    if sel ≠ [] ∧ tile ∉ sel then none
    else
      let row := tile / tilesX
      let col := tile % tilesX
      if row = 0 ∧ col = 0 ∧ sel = [] then some ⟨tile, 0, 0, Mask.noFade⟩
      else if sel ≠ [] then
        some ⟨tile, cropLeft sW w ovx tilesX col, cropTop sH h ovy tilesY row,
              sparseMask tilesX tilesY tile sel⟩
      else
        some ⟨tile, cropLeft sW w ovx tilesX col, cropTop sH h ovy tilesY row,
              fullGridMask tilesX tile⟩)

/-- Failure mode of the compositing stage: the `logger.error("Could not find
all Embiggen output tiles …")` path taken when the tile-count sanity check
fails (no output image is assembled there). -/
inductive RunError
  | incompleteTiles
deriving DecidableEq, Repr

/-- The tile-count sanity check (source lines 406–408):
`len(emb_tile_store) == (emb_tiles_x * emb_tiles_y) or
 (embiggen_tiles != [] and len(emb_tile_store) == len(embiggen_tiles))`. -/
def sanityOk (sel : List Nat) (N storeLen : Nat) : Bool :=
  storeLen == N || (!sel.isEmpty && storeLen == sel.length)

/-- The body of `make_image`: run the synthesis loop, check the tile count,
and either assemble the composite or take the error path. -/
def makeImage (sW sH w h ovx ovy tilesX tilesY : Nat) (sel : List Nat)
    (seed0 : Nat) : Except RunError (List CompositeOp) :=
  let store := genTiles sel (tilesX * tilesY) seed0
  if sanityOk sel (tilesX * tilesY) store.length then
    .ok (compositeOps sW sH w h ovx ovy tilesX tilesY sel)
  else .error .incompleteTiles

/-- Whether a `make_image` run produced an output image. -/
def runOk (r : Except RunError (List CompositeOp)) : Bool :=
  match r with
  | .ok _ => true
  | .error _ => false

/-! Helper lemmas about `ceildiv`, the tile counts, and the synthesis loop. -/

/-- The source's `ceildiv` agrees with natural-number ceiling division on
positive inputs. -/
theorem ceildiv_natCast (a b : Nat) (ha : 0 < a) (hb : 0 < b) :
    ceildiv (a : Int) (b : Int) = ((a - 1) / b + 1 : Nat) := by
  unfold ceildiv
  have hb' : (0 : Int) ≤ (b : Int) := by exact_mod_cast Nat.zero_le b
  have hbne : (b : Int) ≠ 0 := by exact_mod_cast hb.ne'
  rw [Int.fdiv_eq_ediv _ hb']
  set q : Nat := (a - 1) / b with hq
  set r : Nat := (a - 1) % b with hr
  have hdm : b * q + r = a - 1 := Nat.div_add_mod (a - 1) b
  have hrlt : r < b := Nat.mod_lt _ hb
  have h1 : (b : Int) * q + r = (a : Int) - 1 := by omega
  have hsplit : (-(a : Int)) = ((b : Int) - r - 1) + (-((q : Int) + 1)) * b := by
    linarith [h1]
  rw [hsplit, Int.add_mul_ediv_right _ _ hbne,
    Int.ediv_eq_zero_of_lt (by omega) (by omega)]
  push_cast
  ring

/-- Closed form of the per-dimension tile count under the valid-overlap
hypotheses. -/
theorem computeTiles_eq (s w ov : Nat) (hov : ov < w) (hs : w ≤ s) :
    computeTiles s w ov =
      .ok ((if w < s then (s - w - 1) / (w - ov) + 2 else 1 : Nat) : Int) := by
  unfold computeTiles
  rcases Nat.lt_or_ge w s with h | h
  · have h1 : (0 : Int) < (s : Int) - w := by omega
    have h2 : ((w : Int) - ov) ≠ 0 := by omega
    rw [if_pos h1, if_neg h2]
    have hcast1 : ((s : Int) - w) = ((s - w : Nat) : Int) := by omega
    have hcast2 : ((w : Int) - ov) = ((w - ov : Nat) : Int) := by omega
    rw [hcast1, hcast2, ceildiv_natCast _ _ (by omega) (by omega)]
    rw [if_pos h]
    push_cast
    ring
  · have hse : s = w := le_antisymm h hs
    subst hse
    simp

/-- One-dimensional coverage: under the valid hypotheses the tile count is
positive, the crop intervals cover `[0, s)`, stay inside it, and the last
tile is flush with the far edge. -/
theorem cover1D (s w ov : Nat) (hov : ov < w) (hs : w ≤ s) :
    ∀ t : Nat, computeTiles s w ov = .ok (t : Int) →
      (1 ≤ t ∧
       (∀ x, x < s → ∃ c, c < t ∧ cropLeft s w ov t c ≤ x ∧ x < cropLeft s w ov t c + w) ∧
       (∀ c, c < t → cropLeft s w ov t c + w ≤ s) ∧
       cropLeft s w ov t (t - 1) + w = s) := by
  intro t ht
  rw [computeTiles_eq s w ov hov hs] at ht
  have ht' : t = if w < s then (s - w - 1) / (w - ov) + 2 else 1 := by
    have := Except.ok.inj ht
    exact_mod_cast this.symm
  have hdpos : 0 < w - ov := by omega
  rcases Nat.lt_or_ge w s with hlt | hge
  · obtain ⟨q, hq⟩ : ∃ q, (s - w - 1) / (w - ov) = q := ⟨_, rfl⟩
    have htq : t = q + 2 := by rw [ht', if_pos hlt, hq]
    have hqd : q * (w - ov) ≤ s - w - 1 := by
      rw [← hq]; exact Nat.div_mul_le_self _ _
    refine ⟨by omega, ?_, ?_, ?_⟩
    · intro x hx
      rcases Nat.lt_or_ge x (s - w) with hxm | hxm
      · obtain ⟨xc, hxc⟩ : ∃ xc, x / (w - ov) = xc := ⟨_, rfl⟩
        have hxq : xc ≤ q := by
          rw [← hxc, ← hq]; exact Nat.div_le_div_right (by omega)
        have hc1 : xc + 1 ≠ t := by omega
        refine ⟨xc, by omega, ?_, ?_⟩
        · rw [cropLeft, if_neg hc1, ← hxc]
          exact Nat.div_mul_le_self x (w - ov)
        · rw [cropLeft, if_neg hc1]
          have h1 : (w - ov) * xc + x % (w - ov) = x := by
            rw [← hxc]; exact Nat.div_add_mod x (w - ov)
          have h2 : x % (w - ov) < w - ov := Nat.mod_lt _ hdpos
          have h3 : xc * (w - ov) = (w - ov) * xc := Nat.mul_comm _ _
          omega
      · refine ⟨t - 1, by omega, ?_, ?_⟩
        · rw [cropLeft, if_pos (by omega)]; omega
        · rw [cropLeft, if_pos (by omega)]; omega
    · intro c hc
      by_cases hcl : c + 1 = t
      · rw [cropLeft, if_pos hcl]; omega
      · rw [cropLeft, if_neg hcl]
        have hcq : c ≤ q := by omega
        have hmul : c * (w - ov) ≤ q * (w - ov) := Nat.mul_le_mul_right _ hcq
        omega
    · rw [cropLeft, if_pos (by omega)]; omega
  · have hse : s = w := le_antisymm hge hs
    have ht1 : t = 1 := by rw [ht', if_neg (by omega)]
    refine ⟨by omega, ?_, ?_, ?_⟩
    · intro x hx
      refine ⟨0, by omega, ?_, ?_⟩
      · rw [cropLeft, if_pos (by omega)]; omega
      · rw [cropLeft, if_pos (by omega)]; omega
    · intro c hc
      have hc0 : c = 0 := by omega
      subst hc0
      rw [cropLeft, if_pos (by omega)]; omega
    · rw [cropLeft, if_pos (by omega)]; omega

/-- The crop-top formula is the crop-left formula in the other dimension. -/
theorem cropTop_eq_cropLeft (sH h ovy tilesY row : Nat) :
    cropTop sH h ovy tilesY row = cropLeft sH h ovy tilesY row := rfl

/-- Closed form of the synthesis loop over `range' k n` for `k ≥ 1`: each
retained tile index `u` receives the incoming seed advanced `u + 1 - k`
times. -/
theorem genLoop_range' (sel : List Nat) :
    ∀ (n k seed : Nat), 1 ≤ k →
      genLoop sel seed (List.range' k n) =
        ((List.range' k n).filter (fun u => decide (sel = []) || decide (u ∈ sel))).map
          (fun u => (u, advanceSeed^[u + 1 - k] seed)) := by
  intro n
  induction n with
  | zero => intro k seed _; simp [genLoop]
  | succ m ih =>
    intro k seed hk
    rw [List.range'_succ]
    by_cases hmem : sel ≠ [] ∧ k ∉ sel
    · rw [genLoop, if_pos hmem]
      simp only [List.filter_cons]
      have hdec : (decide (sel = []) || decide (k ∈ sel)) = false := by
        simp only [Bool.or_eq_false_iff, decide_eq_false_iff_not]
        exact ⟨hmem.1, hmem.2⟩
      rw [if_neg (by omega : ¬ k = 0)]
      rw [hdec]
      rw [ih (k + 1) (advanceSeed seed) (by omega)]
      apply List.map_congr_left
      intro u hu
      have hu' : k + 1 ≤ u := (List.mem_range'_1.mp (List.mem_of_mem_filter hu)).1
      have harith : u + 1 - k = (u - k) + 1 := by omega
      have harith2 : u + 1 - (k + 1) = u - k := by omega
      rw [harith, harith2, Function.iterate_succ_apply]
    · rw [genLoop, if_neg hmem]
      simp only [List.filter_cons]
      have hdec : (decide (sel = []) || decide (k ∈ sel)) = true := by
        rcases not_and_or.mp hmem with h | h
        · simp only [ne_eq, not_not] at h
          simp [h]
        · simp only [not_not] at h
          simp [h]
      rw [if_neg (by omega : ¬ k = 0)]
      rw [hdec]
      simp only [if_true, List.map_cons]
      have h1 : k + 1 - k = 1 := by omega
      rw [h1, Function.iterate_one]
      rw [ih (k + 1) (advanceSeed seed) (by omega)]
      congr 1
      apply List.map_congr_left
      intro u hu
      have hu' : k + 1 ≤ u := (List.mem_range'_1.mp (List.mem_of_mem_filter hu)).1
      have harith : u + 1 - k = (u - k) + 1 := by omega
      have harith2 : u + 1 - (k + 1) = u - k := by omega
      rw [harith, harith2, Function.iterate_succ_apply]

/-- Closed form of the full synthesis loop: each retained tile index `u` is
passed the run seed advanced `u` times. -/
theorem genTiles_eq (sel : List Nat) (N seed0 : Nat) :
    genTiles sel N seed0 =
      ((List.range N).filter (fun u => decide (sel = []) || decide (u ∈ sel))).map
        (fun u => (u, advanceSeed^[u] seed0)) := by
  unfold genTiles
  cases N with
  | zero => simp [genLoop]
  | succ m =>
    rw [List.range_eq_range']
    rw [List.range'_succ]
    rw [genLoop]
    simp only [Nat.zero_add, List.filter_cons, eq_self_iff_true, if_true]
    by_cases hmem : sel ≠ [] ∧ 0 ∉ sel
    · rw [if_pos hmem]
      have hdec : (decide (sel = []) || decide (0 ∈ sel)) = false := by
        simp only [Bool.or_eq_false_iff, decide_eq_false_iff_not]
        exact ⟨hmem.1, hmem.2⟩
      rw [hdec]
      simp only [Bool.false_eq_true, if_false]
      rw [genLoop_range' sel m 1 seed0 (by omega)]
      apply List.map_congr_left
      intro u hu
      have hu' : 1 ≤ u := (List.mem_range'_1.mp (List.mem_of_mem_filter hu)).1
      have harith : u + 1 - 1 = u := by omega
      rw [harith]
    · rw [if_neg hmem]
      have hdec : (decide (sel = []) || decide (0 ∈ sel)) = true := by
        rcases not_and_or.mp hmem with h | h
        · simp only [ne_eq, not_not] at h
          simp [h]
        · simp only [not_not] at h
          simp [h]
      rw [hdec]
      simp only [if_true, List.map_cons, Function.iterate_zero, id]
      rw [genLoop_range' sel m 1 seed0 (by omega)]
      simp only [Nat.add_sub_cancel]

/-- Looking up a key in an association list whose values are a function of
the key returns that function of the key. -/
theorem lookup_map_pair (f : Nat → Nat) :
    ∀ (l : List Nat) (i : Nat), i ∈ l →
      (l.map (fun u => (u, f u))).lookup i = some (f i) := by
  intro l
  induction l with
  | nil => intro i hi; cases hi
  | cons a rest ih =>
    intro i hi
    simp only [List.map_cons, List.lookup_cons]
    by_cases hia : i = a
    · subst hia
      simp
    · have hne : (i == a) = false := beq_false_of_ne hia
      rw [hne]
      exact ih i (by
        rcases List.mem_cons.mp hi with h | h
        · exact absurd h hia
        · exact h)

/-- The synthesis loop only inspects the selection through emptiness and
membership of the traversed tile indices. -/
theorem genLoop_congr (sel sel' : List Nat) :
    ∀ (l : List Nat) (seed : Nat),
      (sel = [] ↔ sel' = []) → (∀ u ∈ l, u ∈ sel ↔ u ∈ sel') →
      genLoop sel seed l = genLoop sel' seed l := by
  intro l
  induction l with
  | nil => intro seed _ _; rfl
  | cons a rest ih =>
    intro seed hemp hmem
    rw [genLoop, genLoop]
    have hcond : (sel ≠ [] ∧ a ∉ sel) ↔ (sel' ≠ [] ∧ a ∉ sel') := by
      constructor
      · intro ⟨h1, h2⟩
        exact ⟨fun he => h1 (hemp.mpr he), fun hm => h2 ((hmem a (by simp)).mpr hm)⟩
      · intro ⟨h1, h2⟩
        exact ⟨fun he => h1 (hemp.mp he), fun hm => h2 ((hmem a (by simp)).mp hm)⟩
    by_cases hc : sel ≠ [] ∧ a ∉ sel
    · rw [if_pos hc, if_pos (hcond.mp hc)]
      exact ih _ hemp (fun u hu => hmem u (by simp [hu]))
    · rw [if_neg hc, if_neg (fun hc' => hc (hcond.mpr hc'))]
      rw [ih _ hemp (fun u hu => hmem u (by simp [hu]))]

/-! Claim theorems. -/

/-- C1: In full-grid mode, the mask selected for a tile is a pure function of
`(row == 0, col == 0, col == lastCol)` only, and follows the claimed rule
table: top-left → no fade (fully opaque); other top-row tiles → left fade;
left-column tiles below the top row → top fade with asymmetric corner unless
in the last column, where the plain top fade is used; all remaining tiles →
top+left+corner fade, asymmetric unless in the last column. -/
theorem fullGridMask_pure_position (tilesX tile : Nat) (hx : 0 < tilesX) :
    fullGridMask tilesX tile =
      fullGridRule (decide (tile / tilesX = 0)) (decide (tile % tilesX = 0))
        (decide (tile % tilesX = tilesX - 1)) := by
  obtain ⟨row, hrow⟩ : ∃ r, tile / tilesX = r := ⟨_, rfl⟩
  obtain ⟨col, hcolEq⟩ : ∃ c, tile % tilesX = c := ⟨_, rfl⟩
  have hcol : col < tilesX := hcolEq ▸ Nat.mod_lt _ hx
  simp only [fullGridMask, fullGridRule, hrow, hcolEq, decide_eq_true_eq]
  split_ifs <;> first | rfl | omega

/-- Witness for C1 at a concrete grid position. -/
theorem fullGridMask_pure_position_witness :
    fullGridMask 3 5 =
      fullGridRule (decide (5 / 3 = 0)) (decide (5 % 3 = 0))
        (decide (5 % 3 = 3 - 1)) :=
  fullGridMask_pure_position 3 5 (by decide)

/-- C2 counterexample: on the 3×3 grid with zero-based selection {0,1,3,4},
tile 0 (right and below neighbors both selected) receives no alpha mask at
all — the plain fully-opaque outcome — not an asymmetric-corner mask. -/
theorem sparseMask_topLeft_counterexample :
    sparseMask 3 3 0 [0, 1, 3, 4] = Mask.noFade := by decide

/-- C2 as amended: in sparse-rerun mode, the grid's top-left tile whose right
and below neighbors are both in the selection is composited with no alpha
mask (fully opaque); the code's comment reads `Otherwise do nothing on this
tile`. -/
theorem sparseMask_topLeft_bothNeighbors (tilesX tilesY : Nat) (sel : List Nat)
    (_hx : 1 < tilesX) (hR : 1 ∈ sel) (hD : tilesX ∈ sel) :
    sparseMask tilesX tilesY 0 sel = Mask.noFade := by
  simp [sparseMask, Nat.zero_div, Nat.zero_mod, hR, hD]

/-- Witness for C2's amended theorem at a concrete configuration. -/
theorem sparseMask_topLeft_bothNeighbors_witness :
    sparseMask 4 2 0 [1, 4] = Mask.noFade :=
  sparseMask_topLeft_bothNeighbors 4 2 [1, 4] (by decide) (by decide) (by decide)

/-- C3: for every valid configuration (super-image at least one tile in each
dimension, overlaps smaller than the tile), the computed crop rectangles are
all exactly tile-sized, their union exactly covers the super-image with no
gaps and no overhang, and the last-column/last-row rectangles are flush with
the right/bottom edge. -/
theorem embiggen_crops_cover (sW sH w h ovx ovy : Nat)
    (hovx : ovx < w) (hovy : ovy < h) (hw : w ≤ sW) (hh : h ≤ sH) :
    ∃ tx ty : Nat,
      computeTiles sW w ovx = .ok (tx : Int) ∧
      computeTiles sH h ovy = .ok (ty : Int) ∧
      (∀ col, cropRight sW w ovx tx col - cropLeft sW w ovx tx col = w) ∧
      (∀ row, cropBottom sH h ovy ty row - cropTop sH h ovy ty row = h) ∧
      (∀ x y, x < sW → y < sH → ∃ col row, col < tx ∧ row < ty ∧
        cropLeft sW w ovx tx col ≤ x ∧ x < cropRight sW w ovx tx col ∧
        cropTop sH h ovy ty row ≤ y ∧ y < cropBottom sH h ovy ty row) ∧
      (∀ col, col < tx → cropRight sW w ovx tx col ≤ sW) ∧
      (∀ row, row < ty → cropBottom sH h ovy ty row ≤ sH) ∧
      cropRight sW w ovx tx (tx - 1) = sW ∧
      cropBottom sH h ovy ty (ty - 1) = sH := by
  obtain ⟨tx, htx⟩ : ∃ tx : Nat, computeTiles sW w ovx = .ok (tx : Int) :=
    ⟨_, computeTiles_eq sW w ovx hovx hw⟩
  obtain ⟨ty, hty⟩ : ∃ ty : Nat, computeTiles sH h ovy = .ok (ty : Int) :=
    ⟨_, computeTiles_eq sH h ovy hovy hh⟩
  obtain ⟨htx1, hcovx, hinx, hflx⟩ := cover1D sW w ovx hovx hw tx htx
  obtain ⟨hty1, hcovy, hiny, hfly⟩ := cover1D sH h ovy hovy hh ty hty
  refine ⟨tx, ty, htx, hty, ?_, ?_, ?_, ?_, ?_, ?_, ?_⟩
  · intro col; rw [cropRight]; omega
  · intro row; rw [cropBottom, cropTop_eq_cropLeft]; omega
  · intro x y hx hy
    obtain ⟨c, hct, hcleft, hcright⟩ := hcovx x hx
    obtain ⟨r, hrt, hrtop, hrbot⟩ := hcovy y hy
    refine ⟨c, r, hct, hrt, hcleft, ?_, ?_, ?_⟩
    · rw [cropRight]; exact hcright
    · rw [cropTop_eq_cropLeft]; exact hrtop
    · rw [cropBottom, cropTop_eq_cropLeft]; exact hrbot
  · intro col hcol; rw [cropRight]; exact hinx col hcol
  · intro row hrow; rw [cropBottom, cropTop_eq_cropLeft]; exact hiny row hrow
  · rw [cropRight]; exact hflx
  · rw [cropBottom, cropTop_eq_cropLeft]; exact hfly

/-- Witness for C3 at a small concrete configuration. -/
theorem embiggen_crops_cover_witness :
    ∃ tx ty : Nat,
      computeTiles 4 2 1 = .ok (tx : Int) ∧
      computeTiles 2 2 0 = .ok (ty : Int) ∧
      (∀ col, cropRight 4 2 1 tx col - cropLeft 4 2 1 tx col = 2) ∧
      (∀ row, cropBottom 2 2 0 ty row - cropTop 2 2 0 ty row = 2) ∧
      (∀ x y, x < 4 → y < 2 → ∃ col row, col < tx ∧ row < ty ∧
        cropLeft 4 2 1 tx col ≤ x ∧ x < cropRight 4 2 1 tx col ∧
        cropTop 2 2 0 ty row ≤ y ∧ y < cropBottom 2 2 0 ty row) ∧
      (∀ col, col < tx → cropRight 4 2 1 tx col ≤ 4) ∧
      (∀ row, row < ty → cropBottom 2 2 0 ty row ≤ 2) ∧
      cropRight 4 2 1 tx (tx - 1) = 4 ∧
      cropBottom 2 2 0 ty (ty - 1) = 2 :=
  embiggen_crops_cover 4 2 2 2 1 0 (by decide) (by decide) (by decide) (by decide)

/-- C4: the end-to-end example — super-image 1024×512, tiles 512×512, overlap
ratio 0.25 — yields overlaps of 128 pixels, a 3×1 grid, crop rectangles
(0,0,512,512), (384,0,896,512), (512,0,1024,512) with the last flush right,
and full-grid masks: tile 0 fully opaque, tile 1 left fade, tile 2 left
fade. -/
theorem embiggen_example_1024x512 :
    overlapSize (1/4) 512 = 128 ∧
    computeTiles 1024 512 128 = .ok 3 ∧
    computeTiles 512 512 128 = .ok 1 ∧
    cropLeft 1024 512 128 3 0 = 0 ∧ cropRight 1024 512 128 3 0 = 512 ∧
    cropLeft 1024 512 128 3 1 = 384 ∧ cropRight 1024 512 128 3 1 = 896 ∧
    cropLeft 1024 512 128 3 2 = 512 ∧ cropRight 1024 512 128 3 2 = 1024 ∧
    cropTop 512 512 128 1 0 = 0 ∧ cropBottom 512 512 128 1 0 = 512 ∧
    fullGridMask 3 0 = Mask.noFade ∧
    fullGridMask 3 1 = Mask.L ∧
    fullGridMask 3 2 = Mask.L := by
  refine ⟨?_, rfl, rfl, ?_, ?_, ?_, ?_, ?_, ?_, ?_, ?_, ?_, ?_, ?_⟩
  · unfold overlapSize
    norm_num [round_eq]
  all_goals decide

/-- C5 counterexample: with tile width 512, overlap 512 (equal to the tile
dimension) and super-image width 1024, planning fails with the
division-by-zero error from `ceildiv` — not with the sanity-assert
configuration error — and the tile-count divisor is not positive. -/
theorem planGrid_overlap_eq_tile_counterexample :
    planGrid 1024 512 512 512 512 128 = .error PlanError.divByZero ∧
    PlanError.divByZero ≠ PlanError.notLargerThanTile ∧
    ¬ (0 < (512 : Int) - 512) :=
  ⟨rfl, by decide, by decide⟩

/-- C5 as amended: the code contains no overlap-versus-tile-size validation;
whenever the overlap equals the tile dimension and the super-image exceeds
one tile in that dimension, the tile-count computation divides by zero
(Python's `ZeroDivisionError`), so the divisor is not guaranteed positive and
no configuration error is raised first. -/
theorem computeTiles_overlap_eq_tile (s w ov : Nat) (h1 : w < s) (h2 : ov = w) :
    computeTiles s w ov = .error PlanError.divByZero := by
  unfold computeTiles
  have hA : (0 : Int) < (s : Int) - w := by omega
  have hB : ((w : Int) - (ov : Int)) = 0 := by omega
  rw [if_pos hA, if_pos hB]

/-- Witness for C5's amended theorem at the concrete configuration. -/
theorem computeTiles_overlap_eq_tile_witness :
    computeTiles 1024 512 512 = .error PlanError.divByZero :=
  computeTiles_overlap_eq_tile 1024 512 512 (by decide) rfl

/-- C9 counterexample: at seed 4294967294 = 2^32 - 2, which is strictly below
the 32-bit unsigned maximum, the next seed is 0 rather than the successor:
the code wraps one step before the maximum. -/
theorem advanceSeed_wraps_below_max :
    advanceSeed 4294967294 = 0 ∧
    4294967294 < uint32Max ∧
    advanceSeed 4294967294 ≠ 4294967294 + 1 := by decide

/-- C9 as amended: the successor of seed `s` is `s + 1` for
`s < np.iinfo(np.uint32).max - 1` and 0 from `np.iinfo(np.uint32).max - 1`
on, i.e. the wrap to zero happens one step short of the 32-bit unsigned
maximum. -/
theorem advanceSeed_spec :
    (∀ s, s < uint32Max - 1 → advanceSeed s = s + 1) ∧
    (∀ s, uint32Max - 1 ≤ s → advanceSeed s = 0) := by
  constructor
  · intro s hs
    have hlt : s < seedintlimit := by
      unfold seedintlimit
      exact hs
    unfold advanceSeed
    rw [if_pos hlt]
  · intro s hs
    have hge : ¬ s < seedintlimit := by
      unfold seedintlimit
      omega
    unfold advanceSeed
    rw [if_neg hge]

/-- Witness for C9's amended theorem at both sides of the wrap point. -/
theorem advanceSeed_spec_witness :
    advanceSeed 7 = 8 ∧ advanceSeed 4294967294 = 0 :=
  ⟨advanceSeed_spec.1 7 (by decide), advanceSeed_spec.2 4294967294 (by decide)⟩

/-- C6 counterexample: on a 3×1 grid, the sparse selection {0,1,2,7} contains
the out-of-range index 7, yet the run succeeds and produces an output image —
the out-of-range index is silently ignored, and no error of any kind (in
particular no LogicError, which does not exist in the code) is raised. -/
theorem makeImage_out_of_range_silently_ok :
    runOk (makeImage 1024 512 512 512 128 128 3 1 [0, 1, 2, 7] 0) = true ∧
    3 * 1 ≤ 7 := by decide

/-- C6 as amended: an out-of-range sparse tile index is never validated — the
synthesis loop behaves exactly as if the selection had been restricted to its
in-range indices, raising no error; any count mismatch it causes surfaces
only through the compositing-time tile-count check. -/
theorem genTiles_ignores_out_of_range (N seed0 : Nat) (sel : List Nat)
    (hin : ∃ i, i ∈ sel ∧ i < N) :
    genTiles sel N seed0 =
      genTiles (sel.filter (fun i => decide (i < N))) N seed0 := by
  obtain ⟨i, hisel, hiN⟩ := hin
  unfold genTiles
  apply genLoop_congr
  · exact iff_of_false
      (fun he => by rw [he] at hisel; cases hisel)
      (fun he => by
        have hmem : i ∈ sel.filter (fun j => decide (j < N)) :=
          List.mem_filter.mpr ⟨hisel, by simp [hiN]⟩
        rw [he] at hmem; cases hmem)
  · intro u hu
    have huN : u < N := List.mem_range.mp hu
    rw [List.mem_filter]
    simp [huN]

/-- Witness for C6's amended theorem at a concrete selection. -/
theorem genTiles_ignores_out_of_range_witness :
    genTiles [1, 9] 4 0 =
      genTiles (List.filter (fun i => decide (i < 4)) [1, 9]) 4 0 :=
  genTiles_ignores_out_of_range 4 0 [1, 9] ⟨1, by decide, by decide⟩

/-- The tile-count sanity check, spelt as a proposition. -/
theorem sanityOk_iff (sel : List Nat) (N L : Nat) :
    sanityOk sel N L = true ↔ (L = N ∨ (sel ≠ [] ∧ L = sel.length)) := by
  unfold sanityOk
  simp

/-- C7 counterexample: on a 3×1 grid with sparse selection {0,1,2,5}, the
number of rendered tiles (3) differs from the selection size (4) — the
expected count in sparse-rerun mode — yet compositing does not fail: the
count check accepts the store because it happens to match the full grid size,
and an output image is produced. -/
theorem makeImage_count_mismatch_counterexample :
    runOk (makeImage 1024 512 512 512 128 128 3 1 [0, 1, 2, 5] 42) = true ∧
    (genTiles [0, 1, 2, 5] (3 * 1) 42).length ≠ [0, 1, 2, 5].length := by decide

/-- C7 as amended: in sparse-rerun mode a run composites an output image if
and only if the number of rendered tiles — the in-range selected indices —
equals the full grid size or the selection size; on any other mismatch the
run takes the logged incomplete-tiles error path (no typed
IncompleteResultError exists), and a rendered count equal to the full grid
but different from the selection size still silently composites. -/
theorem makeImage_ok_iff (sW sH w h ovx ovy tilesX tilesY : Nat)
    (sel : List Nat) (seed0 : Nat) (hsel : sel ≠ []) :
    runOk (makeImage sW sH w h ovx ovy tilesX tilesY sel seed0) = true ↔
      (((List.range (tilesX * tilesY)).filter (fun u => decide (u ∈ sel))).length
          = tilesX * tilesY ∨
       ((List.range (tilesX * tilesY)).filter (fun u => decide (u ∈ sel))).length
          = sel.length) := by
  have hlen : (genTiles sel (tilesX * tilesY) seed0).length =
      ((List.range (tilesX * tilesY)).filter (fun u => decide (u ∈ sel))).length := by
    rw [genTiles_eq, List.length_map]
    congr 1
    apply List.filter_congr
    intro u hu
    simp [hsel]
  constructor
  · intro hok
    by_cases hc : sanityOk sel (tilesX * tilesY)
        (genTiles sel (tilesX * tilesY) seed0).length = true
    · have hd := (sanityOk_iff _ _ _).mp hc
      rw [hlen] at hd
      rcases hd with hd | hd
      · exact Or.inl hd
      · exact Or.inr hd.2
    · exfalso
      unfold makeImage at hok
      rw [if_neg hc] at hok
      simp [runOk] at hok
  · intro hd
    have hc : sanityOk sel (tilesX * tilesY)
        (genTiles sel (tilesX * tilesY) seed0).length = true := by
      rw [sanityOk_iff, hlen]
      rcases hd with hd | hd
      · exact Or.inl hd
      · exact Or.inr ⟨hsel, hd⟩
    unfold makeImage
    rw [if_pos hc]
    rfl

/-- Witness for C7's amended theorem at a concrete configuration. -/
theorem makeImage_ok_iff_witness :
    runOk (makeImage 1024 512 512 512 128 128 2 1 [0] 0) = true ↔
      (((List.range (2 * 1)).filter (fun u => decide (u ∈ ([0] : List Nat)))).length
          = 2 * 1 ∨
       ((List.range (2 * 1)).filter (fun u => decide (u ∈ ([0] : List Nat)))).length
          = ([0] : List Nat).length) :=
  makeImage_ok_iff 1024 512 512 512 128 128 2 1 [0] 0 (by decide)

/-- C8: under the valid-overlap hypotheses the computed column count is
`ceildiv(superWidth - tileWidth, tileWidth - overlapX) + 1` when the
super-image is wider than one tile and 1 otherwise, and it equals 1 exactly
when the super-image width equals the tile width (the row count follows by
the same formula in the other dimension). -/
theorem tileCols_formula (sW w ov : Nat) (hov : ov < w) (hs : w ≤ sW) :
    computeTiles sW w ov =
      .ok (if w < sW then ceildiv ((sW : Int) - w) ((w : Int) - ov) + 1 else 1) ∧
    (computeTiles sW w ov = .ok 1 ↔ sW = w) := by
  constructor
  · unfold computeTiles
    rcases Nat.lt_or_ge w sW with h | h
    · rw [if_pos (by omega : (0 : Int) < (sW : Int) - w),
        if_neg (by omega : ¬ ((w : Int) - ov = 0)), if_pos h]
    · rw [if_neg (by omega : ¬ (0 : Int) < (sW : Int) - w), if_neg (by omega : ¬ w < sW)]
  · rw [computeTiles_eq sW w ov hov hs]
    constructor
    · intro hok
      have hinj := Except.ok.inj hok
      rcases Nat.lt_or_ge w sW with h | h
      · exfalso
        obtain ⟨q, hq⟩ : ∃ q, (sW - w - 1) / (w - ov) = q := ⟨_, rfl⟩
        rw [if_pos h, hq] at hinj
        have : q + 2 = 1 := by exact_mod_cast hinj
        omega
      · omega
    · intro hse
      rw [if_neg (by omega)]
      norm_num

/-- Witness for C8 at the concrete 1024/512/128 configuration. -/
theorem tileCols_formula_witness :
    (computeTiles 1024 512 128 =
      .ok (if 512 < 1024 then
        ceildiv ((1024 : Int) - 512) ((512 : Int) - 128) + 1 else 1)) ∧
    (computeTiles 1024 512 128 = .ok 1 ↔ 1024 = 512) := by
  exact tileCols_formula 1024 512 128 (by decide) (by decide)

/-- C10: the seed counter is advanced once per grid index, including skipped
tiles, so the seed handed to synthesis for the tile of linear index `i` is
the run seed advanced `i` times under the wrap rule — for every selection
containing `i`, independently of the rest of the selection. -/
theorem genTiles_seed_of_index (N : Nat) (sel : List Nat) (seed0 i : Nat)
    (hiN : i < N) (hisel : i ∈ sel) :
    (genTiles sel N seed0).lookup i = some (advanceSeed^[i] seed0) := by
  rw [genTiles_eq]
  have hmem : i ∈ (List.range N).filter
      (fun u => decide (sel = []) || decide (u ∈ sel)) := by
    rw [List.mem_filter]
    refine ⟨List.mem_range.mpr hiN, ?_⟩
    simp [hisel]
  exact lookup_map_pair (fun u => advanceSeed^[u] seed0) _ i hmem

/-- Witness for C10 at a concrete selection and index. -/
theorem genTiles_seed_of_index_witness :
    (genTiles [2, 4] 6 10).lookup 4 = some (advanceSeed^[4] 10) :=
  genTiles_seed_of_index 6 [2, 4] 10 4 (by decide) (by decide)
